import Mathlib

/-!
Verification of the document-chunking and similarity-retrieval core.

This file gives a shallow embedding, in Lean, of the TypeScript core:

* `Result` mirrors `shared/result.ts` (explicit success/failure values).
* `Constant` mirrors `shared/constants.ts` (token budgets, model name).
* `Embeddings` mirrors the knee-point ranking and tensor
  serialization from `shared/embeddings.ts`.
* `Chunker` mirrors the chunk assembler (`chunk-with-context.ts`):
  heading stack, overlap computation, chunk finalization.
* `ChunkDb` mirrors `scripts/lib/chunk-database.ts`.
* `Embed` mirrors the plain-text path of `scripts/embed.ts`.

Modelling conventions: JavaScript numbers are modelled as `ℚ` where the
code manipulates similarity scores, and as `ℕ` where the code manipulates
token counts or array lengths (these are produced by tokenizers and
`Array.length`, hence non-negative integers).  External collaborators
(the tokenizer `countTokens`, the embedding pipeline, `crypto.randomUUID`)
are passed in as function parameters.  The JSON string transport
(`JSON.stringify` / `JSON.parse`) is modelled as the identity on the
serializable records; the structural part of Zod schema validation is
modelled by typing, while every `refine` / literal / format check of the
schemas is modelled explicitly.
-/

/-- Mirrors `shared/result.ts`: a `Result` is `ok value` or `error err`. -/
inductive Result (α : Type) (ε : Type) where
  | ok (value : α) : Result α ε
  | error (err : ε) : Result α ε
deriving DecidableEq

namespace Result

/-- Mirrors `isOk` from `shared/result.ts`. -/
def isOk {α ε : Type} : Result α ε → Bool
  | .ok _ => true
  | .error _ => false

/-- Mirrors `isError` from `shared/result.ts`. -/
def isError {α ε : Type} : Result α ε → Bool
  | .ok _ => false
  | .error _ => true

end Result

namespace Constant

/-- Mirrors `MODEL_NAME` from `shared/constants.ts`. -/
def MODEL_NAME : String := "Xenova/all-MiniLM-L6-v2"

/-- Mirrors `MAX_TOKENS` from `shared/constants.ts`. -/
def MAX_TOKENS : ℕ := 200

/-- Mirrors `TARGET_TOKENS` from `shared/constants.ts`. -/
def TARGET_TOKENS : ℕ := 200

/-- Mirrors `OVERLAP_TOKENS` from `shared/constants.ts`. -/
def OVERLAP_TOKENS : ℕ := 20

end Constant

/-- Mirrors `WorkSchema` from `scripts/lib/work.ts`: the two-value enum of
works.  Zod enum validation is modelled by this closed inductive type. -/
inductive Work where
  | appliedPythonProgramming
  | thePythonTutorial
deriving DecidableEq

/-- Mirrors the `FinalizedChunk` record from `scripts/lib/finalized-chunk.ts`.
String length is modelled as `String.length` (the code uses UTF-16 code-unit
length; both agree on the ASCII data used in concrete instances here). -/
structure FinalizedChunk where
  headingPath : List String
  totalTokens : ℕ
  rawText : String
  markdownText : String
  work : Work
  title : String
  id : String
deriving DecidableEq

/-- Mirrors one character position of the UUIDv4 format accepted by
`Zod.uuidv4()`: hyphens at positions 8, 13, 18, 23, the version digit `4`
at position 14, a variant in `[89abAB]` at position 19, hex elsewhere. -/
def uuidCharOk (i : ℕ) (c : Char) : Bool :=
  if i = 8 ∨ i = 13 ∨ i = 18 ∨ i = 23 then c = '-'
  else if i = 14 then c = '4'
  else if i = 19 then
    c = '8' ∨ c = '9' ∨ c = 'a' ∨ c = 'b' ∨ c = 'A' ∨ c = 'B'
  else c.isDigit ∨ ('a' ≤ c ∧ c ≤ 'f') ∨ ('A' ≤ c ∧ c ≤ 'F')

/-- Mirrors the `Zod.uuidv4()` format check used on chunk ids. -/
def isUuidV4 (s : String) : Bool :=
  s.length = 36 && s.toList.enum.all fun p => uuidCharOk p.1 p.2

/-- Mirrors the checks of `FinalizedChunkSchema` beyond structural typing:
the `id` must be a UUIDv4 and the `refine` requires
`rawText.length >= totalTokens`. -/
def chunkSchemaOk (c : FinalizedChunk) : Bool :=
  isUuidV4 c.id && c.totalTokens ≤ c.rawText.length

namespace Embeddings

/-- Mirrors `Transformers.Tensor` as used by the core: a dtype string, the
flat data array, and the dimension list.  Float values are modelled as
rationals. -/
structure Tensor where
  dtype : String
  data : List ℚ
  dims : List ℕ
deriving DecidableEq

/-- Mirrors the `TensorData` record of `shared/embeddings.ts`:
`{dataType, data, dimensions: [rows, cols]}`.  The dimensions are modelled
as naturals (Zod constrains them with `min(0)`). -/
structure TensorData where
  dataType : String
  data : List ℚ
  dimensions : ℕ × ℕ
deriving DecidableEq

/-- Mirrors the non-structural part of `TensorDataSchema`: the
`dataType` literal must be `"float32"` and the `refine` requires
`data.length == dimensions[0] * dimensions[1]`. -/
def tensorDataSchemaOk (td : TensorData) : Bool :=
  td.dataType == "float32" && td.data.length == td.dimensions.1 * td.dimensions.2

/-- Mirrors `createTensorData` from `shared/embeddings.ts`.  The
`instanceof Float32Array` check on the data buffer holds by construction in
this model (the data is the flat list of values). -/
def createTensorData (t : Tensor) : Result TensorData String :=
  if t.dtype ≠ "float32" then .error "Tensor must be of type float32"
  else if t.dims.length ≠ 2 then .error "Tensor dimensions must be 2D"
  else .ok ⟨t.dtype, t.data, (t.dims.getD 0 0, t.dims.getD 1 0)⟩

/-- Mirrors `checkTensorDataDimensions` from `shared/embeddings.ts`.  The
source compares against `Math.round(dims[0] * dims[1])`; on naturals the
rounding is the identity. -/
def checkTensorDataDimensions (td : TensorData) : Bool :=
  td.data.length == td.dimensions.1 * td.dimensions.2

/-- Mirrors `tensorFromTensorData` from `shared/embeddings.ts`.  The
`Transformers.Tensor` constructor validates the element count against the
declared dimensions and throws otherwise; the `try/catch` of the source
turns that throw into an error `Result`. -/
def tensorFromTensorData (td : TensorData) : Result Tensor String :=
  if td.data.length = td.dimensions.1 * td.dimensions.2 then
    .ok ⟨td.dataType, td.data, [td.dimensions.1, td.dimensions.2]⟩
  else .error "Failed to create Float32Array: size mismatch"

/-- Mirrors `deserializeTensor` from `shared/embeddings.ts`.  `JSON.parse`
of the transported string is modelled as the identity on the record; the
`TensorDataSchema.safeParse` validation is `tensorDataSchemaOk`. -/
def deserializeTensor (td : TensorData) : Result Tensor String :=
  if ¬ tensorDataSchemaOk td then .error "TensorDataSchema validation failed"
  else if ¬ checkTensorDataDimensions td then
    .error "Tensor data dimensions do not match"
  else tensorFromTensorData td

/-- Stable insertion of an index/score pair into a list that is sorted by
descending score: the new pair goes before the first strictly smaller
score, hence after any equal scores.  Together with `sortByScoreDesc` this
models `indexed.sort((a, b) => b.score - a.score)` in `findBestResults`,
which `Array.prototype.sort` performs as a stable descending sort. -/
def insertDesc (a : ℕ × ℚ) : List (ℕ × ℚ) → List (ℕ × ℚ)
  | [] => [a]
  | b :: l => if b.2 < a.2 then a :: b :: l else b :: insertDesc a l

/-- Stable sort by descending score; see `insertDesc`. -/
def sortByScoreDesc : List (ℕ × ℚ) → List (ℕ × ℚ)
  | [] => []
  | a :: l => insertDesc a (sortByScoreDesc l)

/-- Mirrors `perpendicularDistance` from `shared/embeddings.ts`, squared.
The source computes `|num| / sqrt(den)` with
`num = (ex - sx) * (sy - py) - (sx - px) * (ey - sy)` and
`den = (ex - sx)^2 + (ey - sy)^2`, and only ever compares the resulting
distances (all non-negative) against each other and against `0`.  Since
squaring is strictly monotone on non-negative reals, comparing the squares
`num^2 / den` preserves every comparison the source performs, and keeps the
computation inside `ℚ`. -/
def perpendicularDistanceSq (point lineStart lineEnd : ℚ × ℚ) : ℚ :=
  ((lineEnd.1 - lineStart.1) * (lineStart.2 - point.2) -
      (lineStart.1 - point.1) * (lineEnd.2 - lineStart.2)) ^ 2 /
    ((lineEnd.1 - lineStart.1) ^ 2 + (lineEnd.2 - lineStart.2) ^ 2)

/-- One step of the interior-point loop of `findKneePoint`: the state is
the pair (squared max distance so far, knee index so far), updated when the
strict comparison `distance > maxDistance` succeeds. -/
def kneeStep (scores : List ℚ) (firstPoint lastPoint : ℚ × ℚ)
    (st : ℚ × ℕ) (i : ℕ) : ℚ × ℕ :=
  let point : ℚ × ℚ := ((i : ℚ), scores.getD i 0)
  let distance := perpendicularDistanceSq point firstPoint lastPoint
  if st.1 < distance then (distance, i) else st

/-- Mirrors `findKneePoint` from `shared/embeddings.ts`.  For
`scores.length = n > 2` the loop runs over the interior ranks
`i = 1, ..., n - 2` (`List.range' 1 (n - 2)`), starting from
`maxDistance = 0` and `kneeIndex = n`.  Out-of-range reads
(`scores[i]!`) are modelled with `getD`; all loop indices are in range. -/
def findKneePoint (scores : List ℚ) : ℕ :=
  if scores.length ≤ 2 then scores.length
  else
    let n := scores.length
    let firstPoint : ℚ × ℚ := (0, scores.getD 0 0)
    let lastPoint : ℚ × ℚ := (((n : ℚ) - 1), scores.getD (n - 1) 0)
    ((List.range' 1 (n - 2)).foldl (kneeStep scores firstPoint lastPoint)
      (0, n)).2

/-- Mirrors the `indexed` pair list of `findBestResults` after sorting:
`Array.from(scores, (score, index) => ({index, score}))` is `scores.enum`,
then the stable descending sort by score. -/
def rankedPairs (scores : List ℚ) : List (ℕ × ℚ) :=
  sortByScoreDesc scores.enum

/-- Mirrors `sortedScores` of `findBestResults`: the scores of the sorted
pair list. -/
def sortedScores (scores : List ℚ) : List ℚ :=
  (rankedPairs scores).map Prod.snd

/-- Mirrors `findBestResults` from `shared/embeddings.ts`: sort the
indexed scores descending, find the knee point of the sorted scores, and
return the indices of the first `cutoff` pairs. -/
def findBestResults (scores : List ℚ) : List ℕ :=
  ((rankedPairs scores).take (findKneePoint (sortedScores scores))).map
    Prod.fst

end Embeddings

namespace ChunkDb

open Embeddings

/-- Mirrors the metadata record of `ChunkDatabase`. -/
structure Metadata where
  embeddingModel : String
  dimension : ℕ
  createdAt : String
deriving DecidableEq

/-- Mirrors the `ChunkDatabase` interface from
`scripts/lib/chunk-database.ts`. -/
structure ChunkDatabase where
  chunks : List FinalizedChunk
  embeddings : Tensor
  metadata : Metadata
deriving DecidableEq

/-- Mirrors the `SerializableChunkDatabase` interface. -/
structure SerializableChunkDatabase where
  chunks : List FinalizedChunk
  embeddings : TensorData
  metadata : Metadata
deriving DecidableEq

/-- Mirrors `chunkDatabaseFromSerializableChunkDatabase`. -/
def chunkDatabaseFromSerializableChunkDatabase
    (s : SerializableChunkDatabase) : Result ChunkDatabase String :=
  match tensorFromTensorData s.embeddings with
  | .error e => .error ("Invalid embeddings: " ++ e)
  | .ok t => .ok ⟨s.chunks, t, s.metadata⟩

/-- Mirrors `deserializeChunkDatabase`: `SerializableChunkDatabaseSchema`
validation (the per-chunk schema checks and the tensor-data schema checks)
followed by tensor reconstruction.  The structural part of `safeParse` on
an untyped JSON object is modelled by the input being a shaped record. -/
def deserializeChunkDatabase
    (x : SerializableChunkDatabase) : Result ChunkDatabase String :=
  if x.chunks.all chunkSchemaOk && tensorDataSchemaOk x.embeddings then
    chunkDatabaseFromSerializableChunkDatabase x
  else .error "Invalid chunk database"

/-- Mirrors `serializeChunkDatabase`.  `JSON.stringify` of the resulting
record is modelled as the identity. -/
def serializeChunkDatabase
    (db : ChunkDatabase) : Result SerializableChunkDatabase String :=
  match createTensorData db.embeddings with
  | .error e => .error ("Failed to serialize embeddings: " ++ e)
  | .ok td => .ok ⟨db.chunks, td, db.metadata⟩

/-- Mirrors `create` from `scripts/lib/chunk-database.ts`.  The embedding
of the chunk texts is performed by the external Embedder collaborator
(`extractFeaturesInBatches`); its resulting tensor is passed in as the
`embeddedChunks` parameter, and the current time as `now`.  The source
destructures `dims` as `[numFeatures, vectorLength]` after checking the
length is 2, and rejects a falsy (zero) `vectorLength`. -/
def create (now : String) (embeddedChunks : Tensor)
    (chunks : List FinalizedChunk) : Result ChunkDatabase String :=
  match embeddedChunks.dims with
  | [numFeatures, vectorLength] =>
    if numFeatures ≠ chunks.length then
      .error "Mismatch between number of features and chunks"
    else if vectorLength = 0 then .error "Invalid vector length"
    else .ok ⟨chunks, embeddedChunks,
      ⟨Constant.MODEL_NAME, vectorLength, now⟩⟩
  | _ => .error "Invalid embeddings dimensions"

end ChunkDb

/-- Mirrors the `Stack` interface from `scripts/lib/immutable-stack.ts`:
a record holding the ordered items (bottom first, top last). -/
structure Stack (T : Type) where
  items : List T
deriving DecidableEq

namespace Stack

/-- Mirrors `create`. -/
def create {T : Type} (items : List T := []) : Stack T := ⟨items⟩

/-- Mirrors `push`: appends at the end (the top). -/
def push {T : Type} (stack : Stack T) (item : T) : Stack T :=
  ⟨stack.items ++ [item]⟩

/-- Mirrors the record returned by `pop`. -/
structure PopResult (T : Type) where
  item : Option T
  stack : Stack T

/-- Mirrors `pop`: removes the last item, if any. -/
def pop {T : Type} (stack : Stack T) : PopResult T :=
  if stack.items.isEmpty then ⟨none, stack⟩
  else ⟨stack.items.getLast?, ⟨stack.items.dropLast⟩⟩

/-- Mirrors `peek`: the last item, if any. -/
def peek {T : Type} (stack : Stack T) : Option T :=
  stack.items.getLast?

/-- Mirrors `isEmpty`. -/
def isEmpty {T : Type} (stack : Stack T) : Bool :=
  stack.items.isEmpty

/-- Mirrors `size`. -/
def size {T : Type} (stack : Stack T) : ℕ :=
  stack.items.length

end Stack

namespace Chunker

/-- Mirrors the `SemanticBlock` interface from `chunk-with-context.ts`.
The `node` field (the raw mdast node) carries no information the core
reads and is omitted.  `headingLevel` is present exactly on blocks of type
`"heading"` (the `Heading` sub-interface); it is modelled as an `Option`. -/
structure SemanticBlock where
  type : String
  text : String
  markdown : String
  tokens : ℕ
  headingLevel : Option ℕ := none
deriving DecidableEq

/-- Mirrors the `isHeading` type guard. -/
def isHeading (semanticBlock : SemanticBlock) : Bool :=
  semanticBlock.type == "heading"

/-- Mirrors the `HeadingDatum` interface. -/
structure HeadingDatum where
  text : String
  level : ℕ
deriving DecidableEq

/-- The `while (peek(headings).level >= heading.headingLevel) pop` loop of
`updateHeadingStack`, expressed on the items viewed top-first (that is, on
`items.reverse`, where `peek` is the head and `pop` drops the head). -/
def popHeadingsGE (level : ℕ) : List HeadingDatum → List HeadingDatum
  | [] => []
  | top :: rest =>
    if level ≤ top.level then popHeadingsGE level rest else top :: rest

/-- Mirrors `updateHeadingStack` from `chunk-with-context.ts`: pop every
entry whose level is ≥ the new heading level, then push the new heading. -/
def updateHeadingStack (headings : Stack HeadingDatum)
    (heading : HeadingDatum) : Stack HeadingDatum :=
  Stack.push ⟨(popHeadingsGE heading.level headings.items.reverse).reverse⟩
    heading

/-- The backward loop of `calculateOverlap`, expressed on the blocks
viewed last-first (that is, on `blocks.reverse`): take blocks while the
accumulated token sum stays within `OVERLAP_TOKENS`, and break at the
first block that would overshoot. -/
def overlapLoop : List SemanticBlock → ℕ → List SemanticBlock
  | [], _ => []
  | block :: rest, tokens =>
    if tokens + block.tokens ≤ Constant.OVERLAP_TOKENS then
      block :: overlapLoop rest (tokens + block.tokens)
    else []

/-- Mirrors `calculateOverlap` from `chunk-with-context.ts`: scan the
just-finalized block list backward, greedily keeping whole blocks within
the overlap budget (the source `unshift`s, which the final `reverse`
models). -/
def calculateOverlap (blocks : List SemanticBlock) : List SemanticBlock :=
  (overlapLoop blocks.reverse 0).reverse

/-- Mirrors `finalizeChunk` from `chunk-with-context.ts`.  The token
counter `tc` models the external `countTokens` collaborator and `id`
models the `crypto.randomUUID()` call. -/
def finalizeChunk (tc : String → ℕ) (id : String)
    (blocks overlapBlocks : List SemanticBlock)
    (headings : Stack HeadingDatum) (work : Work) (title : String) :
    FinalizedChunk :=
  let headingPath := headings.items.map (·.text)
  let parts : List String :=
    (if headingPath.length > 0 then
      ["# " ++ String.intercalate " > " headingPath] else []) ++
    (if overlapBlocks.length > 0 then
      [String.intercalate "\n\n" (overlapBlocks.map (·.text))] else []) ++
    [String.intercalate "\n\n" (blocks.map (·.text))]
  let textWithContext := String.intercalate "\n\n" parts
  let totalTokens := tc textWithContext
  let markdownParts : List String :=
    (if overlapBlocks.length > 0 then
      [String.intercalate "\n" (overlapBlocks.map (·.markdown))] else []) ++
    [String.intercalate "\n" (blocks.map (·.markdown))]
  let markdown := String.intercalate "\n" markdownParts
  { headingPath := headingPath
    totalTokens := totalTokens
    rawText := textWithContext
    markdownText := markdown
    work := work
    title := title
    id := id }

/-- The block loop of `chunkWithContext`, carrying its mutable state: the
heading stack, the open buffer `currentBlocks`, the pending
`overlapBlocks`, and the emitted `chunks`.  The `uuid` parameter supplies
the fresh id for each finalized chunk (indexed by how many chunks have
been emitted so far). -/
def chunkLoop (tc : String → ℕ) (uuid : ℕ → String) (work : Work)
    (title : String) :
    List SemanticBlock → Stack HeadingDatum → List SemanticBlock →
    List SemanticBlock → List FinalizedChunk → List FinalizedChunk
  | [], headingStack, currentBlocks, overlapBlocks, chunks =>
    if currentBlocks.length > 0 then
      chunks ++ [finalizeChunk tc (uuid chunks.length) currentBlocks
        overlapBlocks headingStack work title]
    else chunks
  | block :: rest, headingStack, currentBlocks, overlapBlocks, chunks =>
    let headingStack :=
      if isHeading block then
        updateHeadingStack headingStack ⟨block.text, block.headingLevel.getD 0⟩
      else headingStack
    let currentTokens := (currentBlocks.map (·.tokens)).sum
    let wouldExceed := currentTokens + block.tokens > Constant.MAX_TOKENS
    if currentBlocks.length > 0 ∧ wouldExceed then
      chunkLoop tc uuid work title rest headingStack [block]
        (calculateOverlap currentBlocks)
        (chunks ++ [finalizeChunk tc (uuid chunks.length) currentBlocks
          overlapBlocks headingStack work title])
    else
      chunkLoop tc uuid work title rest headingStack
        (currentBlocks ++ [block]) overlapBlocks chunks

/-- Mirrors `chunkWithContext` from `chunk-with-context.ts`: process the
blocks in order and finalize any non-empty remaining buffer at the end. -/
def chunkWithContext (tc : String → ℕ) (uuid : ℕ → String)
    (blocks : List SemanticBlock) (work : Work) (title : String) :
    List FinalizedChunk :=
  chunkLoop tc uuid work title blocks (Stack.create) [] [] []

end Chunker

namespace Embed

/-- Mirrors `TEXT_MAX_TOKENS` from `scripts/embed.ts`. -/
def TEXT_MAX_TOKENS : ℕ := 256

/-- Mirrors `TEXT_OVERLAP_TOKENS` from `scripts/embed.ts`. -/
def TEXT_OVERLAP_TOKENS : ℕ := 85

/-- Mirrors the `BasicChunk` record of `scripts/embed.ts`: parallel lists
of segments and their token counts, plus the running total. -/
structure BasicChunk where
  chunks : List String
  tokenCounts : List ℕ
  totalTokens : ℕ
deriving DecidableEq

/-- Mirrors `emptyBasicChunk`. -/
def emptyBasicChunk : BasicChunk := ⟨[], [], 0⟩

/-- The backward loop of `getOverlapChunks`, expressed on the
segment/token pairs viewed last-first: stop once something has been taken
and the next segment would overshoot `targetOverlap`, but always take the
first (that is, the trailing) segment. -/
def overlapGo (targetOverlap : ℕ) :
    List (String × ℕ) → ℕ → List (String × ℕ)
  | [], _ => []
  | (c, newTokens) :: rest, accumulatedTokens =>
    if 0 < accumulatedTokens ∧ accumulatedTokens + newTokens > targetOverlap
    then []
    else (c, newTokens) :: overlapGo targetOverlap rest
      (accumulatedTokens + newTokens)

/-- Mirrors `getOverlapChunks` from `scripts/embed.ts`.  The source
indexes `tokenCounts[i]` alongside `chunks[i]`; every `BasicChunk` the
script builds keeps the two lists the same length, which the `zip`
models. -/
def getOverlapChunks (basicChunk : BasicChunk) (targetOverlap : ℕ) :
    BasicChunk :=
  let taken :=
    (overlapGo targetOverlap
      (basicChunk.chunks.zip basicChunk.tokenCounts).reverse 0).reverse
  { chunks := taken.map (·.1)
    tokenCounts := taken.map (·.2)
    totalTokens := (taken.map (·.2)).sum }

/-- Mirrors `finalizeBasicChunk` from `scripts/embed.ts`: the segments are
joined with the empty joiner (their trailing separators were preserved by
the splitter), and raw and markdown text coincide. -/
def finalizeBasicChunk (id : String) (basicChunk : BasicChunk)
    (work : Work) (title : String) : FinalizedChunk :=
  let text := String.join basicChunk.chunks
  { headingPath := ["The Python Tutorial"]
    totalTokens := basicChunk.totalTokens
    rawText := text
    markdownText := text
    work := work
    title := title
    id := id }

/-- The segment loop of `processDocument` from `scripts/embed.ts`: when a
segment would reach `TEXT_MAX_TOKENS`, finalize the current buffer and
start the next one from the overlap; then append the segment.  Note the
loop never finalizes the final buffer after the last segment — the
function returns only the chunks finalized inside the loop. -/
def processGo (tc : String → ℕ) (uuid : ℕ → String) (work : Work)
    (title : String) :
    List String → BasicChunk → List FinalizedChunk → List FinalizedChunk
  | [], _, chunks => chunks
  | text :: rest, current, chunks =>
    let newTokens := tc text
    if current.totalTokens + newTokens ≥ TEXT_MAX_TOKENS then
      let chunks := chunks ++
        [finalizeBasicChunk (uuid chunks.length) current work title]
      let next := getOverlapChunks current TEXT_OVERLAP_TOKENS
      processGo tc uuid work title rest
        ⟨next.chunks ++ [text], next.tokenCounts ++ [tc text],
          next.totalTokens + newTokens⟩ chunks
    else
      processGo tc uuid work title rest
        ⟨current.chunks ++ [text], current.tokenCounts ++ [tc text],
          current.totalTokens + newTokens⟩ chunks

/-- Mirrors `processDocument` from `scripts/embed.ts`, starting from the
segments produced by `splitText` (the file read and the blank-line regex
split are upstream of this model; `tc` models the external `countTokens`
and `uuid` the `crypto.randomUUID()` calls). -/
def processDocument (tc : String → ℕ) (uuid : ℕ → String) (work : Work)
    (title : String) (texts : List String) : List FinalizedChunk :=
  processGo tc uuid work title texts emptyBasicChunk []

end Embed

namespace Embed

/-- Once the accumulated token count already exceeds the target, the
backward overlap loop takes nothing further. -/
theorem overlapGo_stop (t : ℕ) (l : List (String × ℕ)) (acc : ℕ)
    (h : t < acc) : overlapGo t l acc = [] := by
  cases l with
  | nil => rfl
  | cons p rest =>
    obtain ⟨c, n⟩ := p
    have hcond : 0 < acc ∧ acc + n > t := ⟨by omega, by omega⟩
    rw [overlapGo, if_pos hcond]

end Embed

/-- C9: in the plain-text path, `getOverlapChunks` always takes at least
the trailing segment of a non-empty chunk (its first loop iteration runs
with `accumulatedTokens = 0`, so the stop condition cannot fire), and when
that trailing segment alone already exceeds `targetOverlap` the overlap is
exactly that one segment, with a token total above the budget — unlike the
assembler path, which returns an empty overlap in the analogous case.
The parallel-array hypothesis `hlen` is the `BasicChunk` invariant every
chunk built by the script satisfies. -/
theorem getOverlapChunks_spec (bc : Embed.BasicChunk) (t : ℕ)
    (hlen : bc.tokenCounts.length = bc.chunks.length)
    (hne : bc.chunks ≠ []) :
    (Embed.getOverlapChunks bc t).chunks ≠ [] ∧
    (Embed.getOverlapChunks bc t).chunks.getLast? = bc.chunks.getLast? ∧
    (∀ tok, bc.tokenCounts.getLast? = some tok → t < tok →
      (Embed.getOverlapChunks bc t).chunks.length = 1 ∧
      (Embed.getOverlapChunks bc t).totalTokens = tok) := by
  obtain ⟨chunks, tokenCounts, total⟩ := bc
  simp only at hlen hne ⊢
  rcases List.eq_nil_or_concat chunks with rfl | ⟨cs, c, hc⟩
  · exact absurd rfl hne
  rw [List.concat_eq_append] at hc
  subst hc
  rcases List.eq_nil_or_concat tokenCounts with rfl | ⟨ts, tk, htk⟩
  · exfalso
    rw [List.length_nil, List.length_append, List.length_cons,
      List.length_nil] at hlen
    omega
  rw [List.concat_eq_append] at htk
  subst htk
  have hlen' : cs.length = ts.length := by
    simp only [List.length_append, List.length_cons, List.length_nil]
      at hlen
    omega
  have hzip : (cs ++ [c]).zip (ts ++ [tk]) = cs.zip ts ++ [(c, tk)] := by
    rw [List.zip_append hlen']
    rfl
  have hrev : ((cs ++ [c]).zip (ts ++ [tk])).reverse =
      (c, tk) :: (cs.zip ts).reverse := by
    rw [hzip]
    simp
  have hgo : Embed.overlapGo t ((c, tk) :: (cs.zip ts).reverse) 0 =
      (c, tk) :: Embed.overlapGo t ((cs.zip ts).reverse) (0 + tk) := by
    rw [Embed.overlapGo, if_neg]
    simp
  refine ⟨?_, ?_, ?_⟩
  · simp [Embed.getOverlapChunks, hrev, hgo]
  · rw [List.getLast?_concat]
    simp only [Embed.getOverlapChunks, hrev, hgo]
    rw [List.map_reverse, List.getLast?_reverse]
    simp
  · intro tok hlast ht
    rw [List.getLast?_concat] at hlast
    simp only [Option.some.injEq] at hlast
    subst hlast
    have hstop : Embed.overlapGo t ((cs.zip ts).reverse) tk = [] :=
      Embed.overlapGo_stop t _ _ (by omega)
    constructor
    · simp [Embed.getOverlapChunks, hrev, hgo, hstop]
    · simp [Embed.getOverlapChunks, hrev, hgo, hstop]

/-- Witness for `getOverlapChunks_spec`: a chunk with a single
100-token segment and a 20-token target still yields a non-empty overlap
whose token total is the full 100 (beyond the budget). -/
theorem getOverlapChunks_spec_witness :
    (Embed.getOverlapChunks ⟨["a"], [100], 100⟩ 20).chunks ≠ [] ∧
    (Embed.getOverlapChunks ⟨["a"], [100], 100⟩ 20).totalTokens = 100 :=
  ⟨(getOverlapChunks_spec ⟨["a"], [100], 100⟩ 20 rfl (by simp)).1,
    ((getOverlapChunks_spec ⟨["a"], [100], 100⟩ 20 rfl (by simp)).2.2 100
      (by simp) (by decide)).2⟩

/-- C3 counterexample: the plain-text path does not use smaller budgets
than the markdown path.  `TEXT_MAX_TOKENS = 256` is not below
`MAX_TOKENS = 200`, and `TEXT_OVERLAP_TOKENS = 85` is not below
`OVERLAP_TOKENS = 20`, so the claimed strict inequalities fail. -/
theorem textBudgets_not_smaller :
    ¬ (Embed.TEXT_MAX_TOKENS < Constant.MAX_TOKENS ∧
      Embed.TEXT_OVERLAP_TOKENS < Constant.OVERLAP_TOKENS) := by
  decide

/-- C3 (amended): the plain-text document path uses a strictly larger
maximum-token budget and a strictly larger overlap-token budget than the
semantic-document (markdown) path:
`MAX_TOKENS < TEXT_MAX_TOKENS` and `OVERLAP_TOKENS < TEXT_OVERLAP_TOKENS`. -/
theorem textBudgets_larger :
    Constant.MAX_TOKENS < Embed.TEXT_MAX_TOKENS ∧
    Constant.OVERLAP_TOKENS < Embed.TEXT_OVERLAP_TOKENS := by
  decide

/-- C2 failing input, evaluated: on a plain-text document consisting of
one short segment ("hello", one token), `processDocument` emits no chunk
at all.  A chunk is finalized only inside the segment loop, so the
trailing buffer — here the whole document — is dropped, contradicting the
claim that every block ends up in some finalized chunk (the markdown path
does flush its remaining buffer; the text path does not). -/
theorem processDocument_drops_trailing_segment :
    Embed.processDocument (fun _ => 1) (fun _ => "") Work.thePythonTutorial
      "The Python Tutorial" ["hello"] = [] ∧
    ["hello"] ≠ ([] : List String) :=
  ⟨rfl, by simp⟩

/-- C7: deserializing a persisted embedding payload
`{dataType := "float32", data, dimensions := (rows, cols)}` returns an
error whenever `data.length ≠ rows * cols`, and succeeds with the
reconstructed tensor exactly when `data.length = rows * cols`. -/
theorem deserializeTensor_length_check (data : List ℚ) (rows cols : ℕ) :
    (data.length ≠ rows * cols →
      ∃ e, Embeddings.deserializeTensor ⟨"float32", data, (rows, cols)⟩ =
        .error e) ∧
    (data.length = rows * cols →
      Embeddings.deserializeTensor ⟨"float32", data, (rows, cols)⟩ =
        .ok ⟨"float32", data, [rows, cols]⟩) := by
  constructor
  · intro h
    refine ⟨"TensorDataSchema validation failed", ?_⟩
    simp [Embeddings.deserializeTensor, Embeddings.tensorDataSchemaOk, h]
  · intro h
    simp [Embeddings.deserializeTensor, Embeddings.tensorDataSchemaOk,
      Embeddings.checkTensorDataDimensions,
      Embeddings.tensorFromTensorData, h]

/-- Witness for `deserializeTensor_length_check` at a concrete payload:
a 1×2 matrix with 2 data values round-trips, and the same data with a
mismatched shape (2×2) is rejected. -/
theorem deserializeTensor_length_check_witness :
    Embeddings.deserializeTensor ⟨"float32", [(1 : ℚ), 2], (1, 2)⟩ =
      .ok ⟨"float32", [(1 : ℚ), 2], [1, 2]⟩ ∧
    ∃ e, Embeddings.deserializeTensor ⟨"float32", [(1 : ℚ), 2], (2, 2)⟩ =
      .error e :=
  ⟨(deserializeTensor_length_check [(1 : ℚ), 2] 1 2).2 rfl,
    (deserializeTensor_length_check [(1 : ℚ), 2] 2 2).1 (by simp)⟩

/-- C8: `ChunkDb.create` succeeds exactly when the embedding tensor is
2-dimensional with row count equal to the number of chunks and a positive
column count; on success the database holds the given chunks and tensor
and records the column count as the dimension, and on any violation it
returns an error message and no database. -/
theorem create_validates (now : String) (embeddedChunks : Embeddings.Tensor)
    (chunks : List FinalizedChunk) :
    ((∃ db, ChunkDb.create now embeddedChunks chunks = .ok db) ↔
      ∃ d, embeddedChunks.dims = [chunks.length, d] ∧ 0 < d) ∧
    (∀ db, ChunkDb.create now embeddedChunks chunks = .ok db →
      db.chunks = chunks ∧ db.embeddings = embeddedChunks ∧
      db.metadata.dimension = embeddedChunks.dims.getD 1 0) ∧
    ((¬ ∃ d, embeddedChunks.dims = [chunks.length, d] ∧ 0 < d) →
      ∃ e, ChunkDb.create now embeddedChunks chunks = .error e) := by
  obtain ⟨dt, data, dims⟩ := embeddedChunks
  rcases dims with _ | ⟨n, _ | ⟨d, _ | ⟨x, t⟩⟩⟩
  · simp [ChunkDb.create]
  · simp [ChunkDb.create]
  · by_cases hn : n = chunks.length
    · by_cases hd : d = 0
      · subst hn; subst hd
        refine ⟨?_, ?_, ?_⟩
        · simp [ChunkDb.create]
        · intro db hdb; simp [ChunkDb.create] at hdb
        · intro _
          exact ⟨"Invalid vector length", by simp [ChunkDb.create]⟩
      · subst hn
        refine ⟨?_, ?_, ?_⟩
        · constructor
          · intro _; exact ⟨d, rfl, Nat.pos_of_ne_zero hd⟩
          · intro _
            refine ⟨⟨chunks, ⟨dt, data, [chunks.length, d]⟩,
              ⟨Constant.MODEL_NAME, d, now⟩⟩, ?_⟩
            simp [ChunkDb.create, hd]
        · intro db hdb
          simp [ChunkDb.create, hd] at hdb
          subst hdb; simp
        · intro hcon
          exact absurd ⟨d, rfl, Nat.pos_of_ne_zero hd⟩ hcon
    · refine ⟨?_, ?_, ?_⟩
      · constructor
        · intro ⟨db, hdb⟩
          simp [ChunkDb.create, hn] at hdb
        · intro ⟨y, hy, _⟩
          simp only [List.cons.injEq] at hy
          exact absurd hy.1 hn
      · intro db hdb; simp [ChunkDb.create, hn] at hdb
      · intro _
        exact ⟨"Mismatch between number of features and chunks",
          by simp [ChunkDb.create, hn]⟩
  · simp [ChunkDb.create]

/-- Witness for `create_validates` at concrete inputs: with no chunks and
a 0-dimensional tensor, `create` reports an error. -/
theorem create_validates_witness :
    ∃ e, ChunkDb.create "2024-01-01" ⟨"float32", [], []⟩ [] = .error e :=
  (create_validates "2024-01-01" ⟨"float32", [], []⟩ []).2.2 (by simp)

/-- C6: for a valid database — embeddings of dtype `float32`, 2-D shape
`[n, d]` with a data array of exactly `n * d` values and positive `d`, and
chunks passing the chunk schema — serialization succeeds and
deserializing the serialized form returns the database back, with the
chunk list, the embedding matrix (same dimensions and values), and the
metadata all equal to the originals. -/
theorem chunkDatabase_roundtrip (db : ChunkDb.ChunkDatabase) (n d : ℕ)
    (h1 : db.embeddings.dtype = "float32")
    (h2 : db.embeddings.dims = [n, d])
    (h3 : db.embeddings.data.length = n * d)
    (h4 : 0 < d)
    (h5 : db.chunks.all chunkSchemaOk = true) :
    ∃ s, ChunkDb.serializeChunkDatabase db = .ok s ∧
      ChunkDb.deserializeChunkDatabase s = .ok db := by
  obtain ⟨chunks, ⟨dt, data, dims⟩, md⟩ := db
  simp only at h1 h2 h3 h5
  subst h1; subst h2
  refine ⟨⟨chunks, ⟨"float32", data, (n, d)⟩, md⟩, ?_, ?_⟩
  · simp [ChunkDb.serializeChunkDatabase, Embeddings.createTensorData]
  · simp [ChunkDb.deserializeChunkDatabase, h5,
      Embeddings.tensorDataSchemaOk, h3,
      ChunkDb.chunkDatabaseFromSerializableChunkDatabase,
      Embeddings.tensorFromTensorData]

/-- A concrete valid database used to instantiate
`chunkDatabase_roundtrip`: one schema-valid chunk and a 1×2 embedding
matrix. -/
def demoDb : ChunkDb.ChunkDatabase :=
  { chunks := [{ headingPath := []
                 totalTokens := 0
                 rawText := ""
                 markdownText := ""
                 work := .thePythonTutorial
                 title := "demo"
                 id := "00000000-0000-4000-8000-000000000000" }]
    embeddings := ⟨"float32", [1/2, 1/3], [1, 2]⟩
    metadata := ⟨Constant.MODEL_NAME, 2, "2024-01-01"⟩ }

/-- Witness for `chunkDatabase_roundtrip` at `demoDb`. -/
theorem chunkDatabase_roundtrip_witness :
    ∃ s, ChunkDb.serializeChunkDatabase demoDb = .ok s ∧
      ChunkDb.deserializeChunkDatabase s = .ok demoDb :=
  chunkDatabase_roundtrip demoDb 1 2 rfl rfl rfl (by decide) (by decide)

namespace Chunker

/-- The accumulated token sum over a block list, as tracked by the
assembler (`reduce((sum, b) => sum + b.tokens, 0)`). -/
def blockTokens (blocks : List SemanticBlock) : ℕ :=
  (blocks.map (·.tokens)).sum

/-- The overlap loop only ever takes an initial run of the (reversed)
block list: it equals a `take` of its input. -/
theorem overlapLoop_eq_take (l : List SemanticBlock) (acc : ℕ) :
    overlapLoop l acc = l.take (overlapLoop l acc).length := by
  induction l generalizing acc with
  | nil => rfl
  | cons b rest ih =>
    by_cases hc : acc + b.tokens ≤ Constant.OVERLAP_TOKENS
    · simp only [overlapLoop, if_pos hc, List.length_cons,
        List.take_succ_cons]
      exact congrArg (b :: ·) (ih _)
    · simp [overlapLoop, if_neg hc]

/-- The overlap loop keeps the accumulated token total within the
budget. -/
theorem overlapLoop_sum (l : List SemanticBlock) (acc : ℕ)
    (h : acc ≤ Constant.OVERLAP_TOKENS) :
    acc + blockTokens (overlapLoop l acc) ≤ Constant.OVERLAP_TOKENS := by
  induction l generalizing acc with
  | nil => simpa [overlapLoop, blockTokens]
  | cons b rest ih =>
    by_cases hc : acc + b.tokens ≤ Constant.OVERLAP_TOKENS
    · have := ih (acc + b.tokens) hc
      simp only [overlapLoop, if_pos hc, blockTokens, List.map_cons,
        List.sum_cons] at this ⊢
      omega
    · simpa [overlapLoop, if_neg hc, blockTokens]

/-- The overlap loop is greedy: any initial run of the (reversed) blocks
that fits the remaining budget is no longer than what the loop takes. -/
theorem overlapLoop_maximal (l : List SemanticBlock) (k acc : ℕ)
    (h : acc + blockTokens (l.take k) ≤ Constant.OVERLAP_TOKENS) :
    min k l.length ≤ (overlapLoop l acc).length := by
  induction l generalizing k acc with
  | nil => simp
  | cons b rest ih =>
    cases k with
    | zero => simp
    | succ k =>
      simp only [blockTokens, List.take_succ_cons, List.map_cons,
        List.sum_cons] at h
      have hc : acc + b.tokens ≤ Constant.OVERLAP_TOKENS := by omega
      have h' : acc + b.tokens + blockTokens (rest.take k) ≤
          Constant.OVERLAP_TOKENS := by
        simp only [blockTokens]; omega
      have := ih k (acc + b.tokens) h'
      simp only [overlapLoop, if_pos hc, List.length_cons,
        Nat.succ_min_succ]
      omega

end Chunker

/-- C4: for every finalized-buffer block list (token counts are naturals,
hence non-negative), `calculateOverlap` returns a contiguous suffix of
whole blocks whose combined token count is at most `OVERLAP_TOKENS`; it is
empty whenever even the last block alone exceeds the budget; and it is
greedy from the end — no longer suffix fits the budget. -/
theorem calculateOverlap_spec (blocks : List Chunker.SemanticBlock) :
    (Chunker.calculateOverlap blocks).IsSuffix blocks ∧
    Chunker.blockTokens (Chunker.calculateOverlap blocks) ≤
      Constant.OVERLAP_TOKENS ∧
    (∀ b, blocks.getLast? = some b →
      Constant.OVERLAP_TOKENS < b.tokens →
      Chunker.calculateOverlap blocks = []) ∧
    (∀ s, s.IsSuffix blocks →
      Chunker.blockTokens s ≤ Constant.OVERLAP_TOKENS →
      s.length ≤ (Chunker.calculateOverlap blocks).length) := by
  refine ⟨?_, ?_, ?_, ?_⟩
  · obtain ⟨k, hk⟩ : ∃ k, Chunker.overlapLoop blocks.reverse 0 =
        blocks.reverse.take k :=
      ⟨_, Chunker.overlapLoop_eq_take _ _⟩
    unfold Chunker.calculateOverlap
    rw [hk]
    exact ⟨(blocks.reverse.drop k).reverse, by
      rw [← List.reverse_append, List.take_append_drop,
        List.reverse_reverse]⟩
  · have h := Chunker.overlapLoop_sum blocks.reverse 0 (Nat.zero_le _)
    simpa [Chunker.calculateOverlap, Chunker.blockTokens,
      List.map_reverse, List.sum_reverse] using h
  · intro b hlast hover
    have hh : blocks.reverse.head? = some b := by
      rw [List.head?_reverse]; exact hlast
    rcases hrev : blocks.reverse with _ | ⟨hd, tl⟩
    · rw [hrev] at hh; simp at hh
    · rw [hrev] at hh
      simp only [List.head?_cons, Option.some.injEq] at hh
      subst hh
      have hneg : ¬ (0 + hd.tokens ≤ Constant.OVERLAP_TOKENS) := by omega
      simp [Chunker.calculateOverlap, hrev, Chunker.overlapLoop, hneg,
        hover]
  · intro s hs hsum
    obtain ⟨t, ht⟩ := hs
    have hrev : blocks.reverse = s.reverse ++ t.reverse := by
      rw [← ht, List.reverse_append]
    have htake : blocks.reverse.take s.length = s.reverse := by
      have h := List.take_left s.reverse t.reverse
      rw [List.length_reverse] at h
      rw [hrev, h]
    have hsum' : 0 + Chunker.blockTokens (blocks.reverse.take s.length) ≤
        Constant.OVERLAP_TOKENS := by
      rw [htake]
      simpa [Chunker.blockTokens, List.map_reverse, List.sum_reverse]
        using hsum
    have hmax := Chunker.overlapLoop_maximal blocks.reverse s.length 0 hsum'
    have hslen : s.length ≤ blocks.length := by
      rw [← ht]; simp
    rw [List.length_reverse] at hmax
    simp only [Chunker.calculateOverlap, List.length_reverse]
    omega

namespace Chunker

/-- The popping loop drops entries from the top (the head of the
reversed items): its result is a `drop` of its input. -/
theorem popHeadingsGE_eq_drop (level : ℕ) (l : List HeadingDatum) :
    ∃ k, popHeadingsGE level l = l.drop k := by
  induction l with
  | nil => exact ⟨0, rfl⟩
  | cons top rest ih =>
    by_cases hc : level ≤ top.level
    · obtain ⟨k, hk⟩ := ih
      exact ⟨k + 1, by simp [popHeadingsGE, if_pos hc, hk]⟩
    · exact ⟨0, by simp [popHeadingsGE, if_neg hc]⟩

/-- When the popping loop leaves a non-empty stack, the new top is
strictly below the incoming heading level (the loop popped everything at
the same or a deeper level). -/
theorem popHeadingsGE_head_lt (level : ℕ) (l : List HeadingDatum)
    (x : HeadingDatum) (h : (popHeadingsGE level l).head? = some x) :
    x.level < level := by
  induction l with
  | nil => simp [popHeadingsGE] at h
  | cons top rest ih =>
    by_cases hc : level ≤ top.level
    · rw [popHeadingsGE, if_pos hc] at h
      exact ih h
    · rw [popHeadingsGE, if_neg hc] at h
      simp only [List.head?_cons, Option.some.injEq] at h
      subst h
      omega

/-- A strictly increasing chain survives dropping a suffix of the list. -/
theorem chain'_drop {α : Type} {R : α → α → Prop} (l : List α) (k : ℕ)
    (h : List.Chain' R l) : List.Chain' R (l.drop k) := by
  induction l generalizing k with
  | nil => simp
  | cons a rest ih =>
    cases k with
    | zero => exact h
    | succ k => exact ih k h.tail

/-- Preservation half of the heading-stack invariant: if the stack levels
are strictly increasing bottom-to-top, they still are after
`updateHeadingStack` pops every entry at the same or a deeper level and
pushes the new heading. -/
theorem updateHeadingStack_chain (st : Stack HeadingDatum)
    (heading : HeadingDatum)
    (h : List.Chain' (· < ·) (st.items.map HeadingDatum.level)) :
    List.Chain' (· < ·)
      ((updateHeadingStack st heading).items.map HeadingDatum.level) := by
  obtain ⟨k, hk⟩ := popHeadingsGE_eq_drop heading.level st.items.reverse
  have hrevchain : List.Chain' (fun a b => b < a)
      (st.items.reverse.map HeadingDatum.level) := by
    rw [List.map_reverse]
    exact List.chain'_reverse.mpr h
  have hdropchain : List.Chain' (fun a b => b < a)
      ((popHeadingsGE heading.level st.items.reverse).map
        HeadingDatum.level) := by
    rw [hk, List.map_drop]
    exact chain'_drop _ k hrevchain
  simp only [updateHeadingStack, Stack.push, List.map_append,
    List.map_cons, List.map_nil]
  rw [List.chain'_append]
  refine ⟨?_, List.chain'_singleton _, ?_⟩
  · rw [List.map_reverse]
    exact List.chain'_reverse.mpr (by simpa [flip] using hdropchain)
  · intro x hx y hy
    simp only [List.head?_cons, Option.mem_def, Option.some.injEq] at hy
    subst hy
    rw [List.map_reverse, List.getLast?_reverse] at hx
    rcases hh : (popHeadingsGE heading.level st.items.reverse).head? with
      _ | ⟨z⟩
    · rw [List.head?_map, hh] at hx; simp at hx
    · rw [List.head?_map, hh] at hx
      have hz := popHeadingsGE_head_lt heading.level st.items.reverse z hh
      simp at hx
      omega

end Chunker

/-- C5: when the assembler meets a heading it pops every stack entry whose
level is ≥ the new heading level and pushes the new heading.  The first
conjunct is the invariant: a strictly increasing bottom-to-top level chain
is preserved by every update; the second derives that the invariant holds
for the stack produced by any heading sequence processed from the empty
stack; the third is the concrete example — after
H1 "Intro", H2 "Setup", H1 "Usage" the stack is exactly ["Usage"]. -/
theorem updateHeadingStack_spec :
    (∀ (st : Stack Chunker.HeadingDatum) (h : Chunker.HeadingDatum),
      List.Chain' (· < ·) (st.items.map Chunker.HeadingDatum.level) →
      List.Chain' (· < ·)
        ((Chunker.updateHeadingStack st h).items.map
          Chunker.HeadingDatum.level)) ∧
    (∀ hs : List Chunker.HeadingDatum,
      List.Chain' (· < ·)
        ((hs.foldl Chunker.updateHeadingStack (Stack.create)).items.map
          Chunker.HeadingDatum.level)) ∧
    ((([⟨"Intro", 1⟩, ⟨"Setup", 2⟩, ⟨"Usage", 1⟩] :
        List Chunker.HeadingDatum).foldl
      Chunker.updateHeadingStack (Stack.create)).items = [⟨"Usage", 1⟩]) := by
  refine ⟨fun st h => Chunker.updateHeadingStack_chain st h, ?_, ?_⟩
  · intro hs
    have main : ∀ (hs : List Chunker.HeadingDatum)
        (st : Stack Chunker.HeadingDatum),
        List.Chain' (· < ·) (st.items.map Chunker.HeadingDatum.level) →
        List.Chain' (· < ·)
          ((hs.foldl Chunker.updateHeadingStack st).items.map
            Chunker.HeadingDatum.level) := by
      intro hs
      induction hs with
      | nil => intro st hst; exact hst
      | cons hd tl ih =>
        intro st hst
        exact ih _ (Chunker.updateHeadingStack_chain st hd hst)
    exact main hs (Stack.create) (by simp [Stack.create])
  · rfl

/-- Witness for `updateHeadingStack_spec`: pushing a first heading onto
the empty stack preserves the strictly-increasing-levels invariant. -/
theorem updateHeadingStack_spec_witness :
    List.Chain' (· < ·)
      ((Chunker.updateHeadingStack (Stack.create) ⟨"Intro", 1⟩).items.map
        Chunker.HeadingDatum.level) :=
  updateHeadingStack_spec.1 (Stack.create) ⟨"Intro", 1⟩
    (by simp [Stack.create])

/-- A single oversized block (30 tokens, above the 20-token overlap
budget) used to instantiate `calculateOverlap_spec`. -/
def demoOverlapBlocks : List Chunker.SemanticBlock :=
  [{ type := "paragraph", text := "a", markdown := "a", tokens := 30 }]

/-- Witness for `calculateOverlap_spec` at `demoOverlapBlocks`: even the
last block alone exceeds the budget, so the overlap is empty. -/
theorem calculateOverlap_spec_witness :
    Chunker.calculateOverlap demoOverlapBlocks = [] ∧
    Chunker.blockTokens (Chunker.calculateOverlap demoOverlapBlocks) ≤
      Constant.OVERLAP_TOKENS :=
  ⟨(calculateOverlap_spec demoOverlapBlocks).2.2.1
      { type := "paragraph", text := "a", markdown := "a", tokens := 30 }
      (by simp [demoOverlapBlocks]) (by decide),
    (calculateOverlap_spec demoOverlapBlocks).2.1⟩

namespace Embeddings

/-- Stable descending insertion permutes: inserting a pair yields a
permutation of consing it. -/
theorem insertDesc_perm (a : ℕ × ℚ) (l : List (ℕ × ℚ)) :
    (insertDesc a l).Perm (a :: l) := by
  induction l with
  | nil => exact List.Perm.refl _
  | cons b t ih =>
    by_cases hc : b.2 < a.2
    · rw [insertDesc, if_pos hc]
    · rw [insertDesc, if_neg hc]
      exact (ih.cons b).trans (List.Perm.swap a b t)

/-- The stable descending sort is a permutation of its input. -/
theorem sortByScoreDesc_perm (l : List (ℕ × ℚ)) :
    (sortByScoreDesc l).Perm l := by
  induction l with
  | nil => exact List.Perm.refl _
  | cons a t ih =>
    exact (insertDesc_perm a (sortByScoreDesc t)).trans (ih.cons a)

/-- Stable descending insertion preserves the descending-score order. -/
theorem insertDesc_pairwise (a : ℕ × ℚ) (l : List (ℕ × ℚ))
    (h : l.Pairwise (fun x y => y.2 ≤ x.2)) :
    (insertDesc a l).Pairwise (fun x y => y.2 ≤ x.2) := by
  induction l with
  | nil => simp [insertDesc]
  | cons b t ih =>
    rw [List.pairwise_cons] at h
    by_cases hc : b.2 < a.2
    · rw [insertDesc, if_pos hc, List.pairwise_cons]
      constructor
      · intro x hx
        rcases List.mem_cons.mp hx with rfl | hx2
        · exact le_of_lt hc
        · exact le_trans (h.1 x hx2) (le_of_lt hc)
      · exact List.pairwise_cons.mpr h
    · rw [insertDesc, if_neg hc, List.pairwise_cons]
      constructor
      · intro x hx
        rcases List.mem_cons.mp ((insertDesc_perm a t).mem_iff.mp hx) with
          rfl | hx2
        · exact not_lt.mp hc
        · exact h.1 x hx2
      · exact ih h.2

/-- The stable descending sort produces pairwise descending scores. -/
theorem sortByScoreDesc_pairwise (l : List (ℕ × ℚ)) :
    (sortByScoreDesc l).Pairwise (fun x y => y.2 ≤ x.2) := by
  induction l with
  | nil => simp [sortByScoreDesc]
  | cons a t ih => exact insertDesc_pairwise a _ ih

/-- One knee-loop step either keeps the running knee index or replaces it
with the current loop index. -/
theorem kneeStep_snd (scores : List ℚ) (fp lp : ℚ × ℚ) (st : ℚ × ℕ)
    (i : ℕ) :
    (kneeStep scores fp lp st i).2 = st.2 ∨
      (kneeStep scores fp lp st i).2 = i := by
  unfold kneeStep
  simp only
  split_ifs with hc
  · right; rfl
  · left; rfl

/-- After folding the knee loop, the knee index is either the initial one
or one of the visited loop indices. -/
theorem foldl_kneeStep_snd (scores : List ℚ) (fp lp : ℚ × ℚ)
    (l : List ℕ) (st : ℚ × ℕ) :
    (l.foldl (kneeStep scores fp lp) st).2 = st.2 ∨
      (l.foldl (kneeStep scores fp lp) st).2 ∈ l := by
  induction l generalizing st with
  | nil => exact Or.inl rfl
  | cons i tl ih =>
    rw [List.foldl_cons]
    rcases ih (kneeStep scores fp lp st i) with h | h
    · rcases kneeStep_snd scores fp lp st i with h2 | h2
      · exact Or.inl (h.trans h2)
      · exact Or.inr (by rw [h, h2]; exact List.mem_cons_self i tl)
    · exact Or.inr (List.mem_cons_of_mem i h)

/-- For more than two scores, the knee index is either the list length
(no interior point beat distance 0) or an interior rank in
`[1, length - 2]`. -/
theorem findKneePoint_cases (scores : List ℚ) (h : 2 < scores.length) :
    findKneePoint scores = scores.length ∨
      (1 ≤ findKneePoint scores ∧
        findKneePoint scores ≤ scores.length - 2) := by
  have hn : ¬ scores.length ≤ 2 := by omega
  unfold findKneePoint
  rw [if_neg hn]
  simp only
  rcases foldl_kneeStep_snd scores (0, scores.getD 0 0)
      (((scores.length : ℚ) - 1), scores.getD (scores.length - 1) 0)
      (List.range' 1 (scores.length - 2)) (0, scores.length) with hh | hh
  · exact Or.inl hh
  · right
    rw [List.mem_range'_1] at hh
    omega

/-- For at most two scores the knee cutoff is the full length. -/
theorem findKneePoint_small (scores : List ℚ) (h : scores.length ≤ 2) :
    findKneePoint scores = scores.length := by
  unfold findKneePoint
  rw [if_pos h]

/-- The knee cutoff of a non-empty score list is at least 1. -/
theorem findKneePoint_pos (scores : List ℚ) (h : scores ≠ []) :
    1 ≤ findKneePoint scores := by
  have hlen : 0 < scores.length := List.length_pos.mpr h
  by_cases h2 : scores.length ≤ 2
  · rw [findKneePoint_small scores h2]; omega
  · rcases findKneePoint_cases scores (by omega) with hc | hc
    · omega
    · omega

/-- The ranked pair list is a permutation of the enumerated scores. -/
theorem rankedPairs_perm (scores : List ℚ) :
    (rankedPairs scores).Perm scores.enum :=
  sortByScoreDesc_perm _

/-- The ranked pair list has one pair per score. -/
theorem rankedPairs_length (scores : List ℚ) :
    (rankedPairs scores).length = scores.length := by
  rw [(rankedPairs_perm scores).length_eq, List.enum_length]

/-- The sorted score list has the same length as the input. -/
theorem sortedScores_length (scores : List ℚ) :
    (sortedScores scores).length = scores.length := by
  rw [sortedScores, List.length_map, rankedPairs_length]

/-- Every ranked pair carries a valid index and the score stored at that
index. -/
theorem mem_rankedPairs (scores : List ℚ) (p : ℕ × ℚ)
    (h : p ∈ rankedPairs scores) :
    p.1 < scores.length ∧ scores.getD p.1 0 = p.2 := by
  have hmem : p ∈ scores.enum := (rankedPairs_perm scores).mem_iff.mp h
  rw [List.mem_enum_iff_getElem?, List.getElem?_eq_some] at hmem
  obtain ⟨hlt, hget⟩ := hmem
  refine ⟨hlt, ?_⟩
  rw [List.getD_eq_getElem?_getD, List.getElem?_eq_getElem hlt, hget]
  rfl

end Embeddings

/-- C10: for every non-empty score list, `findBestResults` returns a
non-empty list of distinct valid indices into the input, ordered by
descending score; the knee cutoff (computed on the sorted scores) is
always ≥ 1 — equal to the length for at most two scores, and otherwise
either an interior rank in `[1, length - 2]` or the full length. -/
theorem findBestResults_spec (scores : List ℚ) (hne : scores ≠ []) :
    Embeddings.findBestResults scores ≠ [] ∧
    (Embeddings.findBestResults scores).Nodup ∧
    (∀ i ∈ Embeddings.findBestResults scores, i < scores.length) ∧
    (Embeddings.findBestResults scores).Pairwise
      (fun i j => scores.getD j 0 ≤ scores.getD i 0) ∧
    1 ≤ Embeddings.findKneePoint (Embeddings.sortedScores scores) ∧
    (scores.length ≤ 2 →
      Embeddings.findKneePoint (Embeddings.sortedScores scores) =
        scores.length) ∧
    (2 < scores.length →
      Embeddings.findKneePoint (Embeddings.sortedScores scores) =
          scores.length ∨
        (1 ≤ Embeddings.findKneePoint (Embeddings.sortedScores scores) ∧
          Embeddings.findKneePoint (Embeddings.sortedScores scores) ≤
            scores.length - 2)) := by
  have hn : 0 < scores.length := List.length_pos.mpr hne
  have hsne : Embeddings.sortedScores scores ≠ [] := by
    apply List.ne_nil_of_length_pos
    rw [Embeddings.sortedScores_length]
    exact hn
  have hkpos := Embeddings.findKneePoint_pos _ hsne
  refine ⟨?_, ?_, ?_, ?_, hkpos, ?_, ?_⟩
  · apply List.ne_nil_of_length_pos
    rw [Embeddings.findBestResults, List.length_map, List.length_take,
      Embeddings.rankedPairs_length]
    omega
  · have hnodup_enum : (scores.enum.map Prod.fst).Nodup := by
      rw [List.enum_map_fst]; exact List.nodup_range _
    have hnodup_ranked : ((Embeddings.rankedPairs scores).map
        Prod.fst).Nodup :=
      ((Embeddings.rankedPairs_perm scores).map Prod.fst).nodup_iff.mpr
        hnodup_enum
    exact List.Nodup.sublist
      ((List.take_sublist _ _).map Prod.fst) hnodup_ranked
  · intro i hi
    rw [Embeddings.findBestResults] at hi
    obtain ⟨p, hp, rfl⟩ := List.mem_map.mp hi
    exact (Embeddings.mem_rankedPairs scores p
      (List.take_subset _ _ hp)).1
  · have hpw : ((Embeddings.rankedPairs scores).take
        (Embeddings.findKneePoint (Embeddings.sortedScores
          scores))).Pairwise (fun x y => y.2 ≤ x.2) :=
      List.Pairwise.sublist (List.take_sublist _ _)
        (Embeddings.sortByScoreDesc_pairwise scores.enum)
    rw [Embeddings.findBestResults, List.pairwise_map]
    refine List.Pairwise.imp_of_mem ?_ hpw
    intro a b ha hb hr
    rw [(Embeddings.mem_rankedPairs scores a
        (List.take_subset _ _ ha)).2,
      (Embeddings.mem_rankedPairs scores b
        (List.take_subset _ _ hb)).2]
    exact hr
  · intro h2
    rw [Embeddings.findKneePoint_small _
      (by rw [Embeddings.sortedScores_length]; exact h2)]
    exact Embeddings.sortedScores_length scores
  · intro h2
    have := Embeddings.findKneePoint_cases (Embeddings.sortedScores scores)
      (by rw [Embeddings.sortedScores_length]; exact h2)
    rw [Embeddings.sortedScores_length] at this
    exact this

/-- Witness for `findBestResults_spec`: the singleton score list yields a
non-empty result. -/
theorem findBestResults_spec_witness :
    Embeddings.findBestResults [(1 : ℚ)] ≠ [] :=
  (findBestResults_spec [(1 : ℚ)] (by simp)).1

/-- The example score array from the specification:
`[0.9, 0.85, 0.82, 0.3, 0.25, 0.2]`, as exact rationals (each value is
exactly representable, and all comparisons the knee computation performs
on this input are decided by margins far above double-precision rounding
error). -/
def kneeExampleScores : List ℚ := [9/10, 85/100, 82/100, 3/10, 25/100, 2/10]

/-- C1 counterexample: on the spec's example scores the knee cutoff is
not 3 and `findBestResults` does not return the top three indices.  The
interior point of maximum distance from the chord through (0, 0.9) and
(5, 0.2) is rank 2 (the point (2, 0.82), which sits 0.2 above the chord,
versus 0.18 below for rank 3), so the cutoff is 2, not 3. -/
theorem kneeExample_not_three :
    Embeddings.findKneePoint kneeExampleScores ≠ 3 ∧
    Embeddings.findBestResults kneeExampleScores ≠ [0, 1, 2] := by
  constructor
  · norm_num [Embeddings.findKneePoint, Embeddings.kneeStep,
      Embeddings.perpendicularDistanceSq, kneeExampleScores,
      List.range', List.getD]
  · norm_num [Embeddings.findBestResults, Embeddings.rankedPairs,
      Embeddings.sortedScores, Embeddings.sortByScoreDesc,
      Embeddings.insertDesc, Embeddings.findKneePoint,
      Embeddings.kneeStep, Embeddings.perpendicularDistanceSq,
      kneeExampleScores, List.enum, List.enumFrom, List.range',
      List.getD]

/-- C1 (amended): for the score array `[0.9, 0.85, 0.82, 0.3, 0.25, 0.2]`
the knee-point cutoff computed by `findKneePoint` is 2 — the maximum
perpendicular distance to the chord is attained at rank 2 — so
`findBestResults` returns the indices of the top two scores, in
descending score order. -/
theorem kneeExample_cutoff_two :
    Embeddings.findKneePoint kneeExampleScores = 2 ∧
    Embeddings.findBestResults kneeExampleScores = [0, 1] := by
  constructor
  · norm_num [Embeddings.findKneePoint, Embeddings.kneeStep,
      Embeddings.perpendicularDistanceSq, kneeExampleScores,
      List.range', List.getD]
  · norm_num [Embeddings.findBestResults, Embeddings.rankedPairs,
      Embeddings.sortedScores, Embeddings.sortByScoreDesc,
      Embeddings.insertDesc, Embeddings.findKneePoint,
      Embeddings.kneeStep, Embeddings.perpendicularDistanceSq,
      kneeExampleScores, List.enum, List.enumFrom, List.range',
      List.getD]
